import Mathlib

/-!
A shallow embedding of the json-mapping decoder combinator library
(src/index.js) and proofs about it.

Modelling choices, stated once here:

* JSON-like runtime values are the inductive `Value` below: null, booleans,
  numbers, strings, arrays, and objects (own enumerable string-keyed fields in
  insertion order, as produced by a JSON parse).  Exotic JavaScript values
  (functions, symbols, prototype-chain properties) are outside the model.
* JavaScript numbers are `JNum`: NaN, the two infinities, or a finite rational.
  `isNaN`, `Math.trunc` and strict (in)equality are ported exactly on this
  type.  The textual rendering of a finite number (used only inside error
  dumps) prints the exact decimal expansion when one exists, which agrees with
  JavaScript on every decimal literal, and falls back to a fraction otherwise.
* Possible non-termination (a `lazy` thunk or an `andThen` continuation can
  rebuild decoders forever) is modelled with a fuel parameter: every call of
  `decodeInternal` consumes one unit, and `none` means the computation did not
  finish within the given fuel.  For every terminating run there is a fuel
  that returns `some`.
-/

/-- A JavaScript number: NaN, one of the infinities, or a finite value
(modelled exactly as a rational). -/
inductive JNum where
  | nan
  | posInf
  | negInf
  | fin (q : ℚ)
deriving DecidableEq, Repr

/-- A JSON-like runtime value.  Objects are their own enumerable fields in
insertion order; arrays are element lists. -/
inductive Value where
  | null
  | bool (b : Bool)
  | num (n : JNum)
  | str (s : String)
  | arr (items : List Value)
  | obj (fields : List (String × Value))
deriving Repr

/-- Port of the JavaScript `isNaN` check as used on an operand already known
to be a number. -/
def JNum.isNaN : JNum → Bool
  | .nan => true
  | _ => false

/-- Port of `Math.trunc`: truncation toward zero; `trunc NaN = NaN` and
`trunc (±∞) = ±∞`, exactly as in JavaScript. -/
def JNum.trunc : JNum → JNum
  | .nan => .nan
  | .posInf => .posInf
  | .negInf => .negInf
  | .fin q => .fin (if 0 ≤ q then (⌊q⌋ : ℚ) else (⌈q⌉ : ℚ))

/-- JavaScript strict equality `===` restricted to numbers: `NaN === x` is
false for every `x` (including NaN itself); otherwise numeric equality. -/
def JNum.strictEq : JNum → JNum → Bool
  | .nan, _ => false
  | _, .nan => false
  | .posInf, .posInf => true
  | .posInf, _ => false
  | .negInf, .negInf => true
  | .negInf, _ => false
  | .fin a, .fin b => decide (a = b)
  | .fin _, _ => false

/-- Port of `typeof value === \x27object\x27 && value !== null`: true exactly for
arrays and objects in the JSON value model. -/
def Value.isObjectType : Value → Bool
  | .arr _ => true
  | .obj _ => true
  | _ => false

/-- Port of `typeof value === \x27number\x27`. -/
def Value.isNumberType : Value → Bool
  | .num _ => true
  | _ => false

/-- Port of `Array.isArray value`. -/
def Value.isArrayType : Value → Bool
  | .arr _ => true
  | _ => false

/-- The `isNaN value` check for a `Value` already known to be number-typed (false on
every non-number, which is how the source always guards the call). -/
def Value.isNaNNum : Value → Bool
  | .num n => n.isNaN
  | _ => false

/-- First binding of `key` in an object field list (JavaScript objects never
hold a key twice, so this is plain lookup). -/
def lookupField : List (String × Value) → String → Option Value
  | [], _ => none
  | (k, v) :: rest, key => if k = key then some v else lookupField rest key

/-- The array index denoted by a property name, if any: `s` must be the
canonical decimal form of some `i < len`. -/
def arrIndexOf (s : String) (len : Nat) : Option Nat :=
  match s.toNat? with
  | some i => if toString i = s && i < len then some i else none
  | none => none

/-- The JavaScript `key in value` test, restricted to the JSON value model:
own fields of objects, and indices plus `length` for arrays. -/
def Value.hasKey : Value → String → Bool
  | .obj fields, key => (lookupField fields key).isSome
  | .arr items, key => key = "length" || (arrIndexOf key items.length).isSome
  | _, _ => false

/-- The JavaScript `value[key]` read (meaningful when `hasKey` holds; the
`.null` fallback is never reached by the interpreter). -/
def Value.getKey : Value → String → Value
  | .obj fields, key => (lookupField fields key).getD .null
  | .arr items, key =>
      if key = "length" then .num (.fin items.length)
      else
        match arrIndexOf key items.length with
        | some i => items.getD i .null
        | none => .null
  | _, _ => .null

/-- The JavaScript assignment `obj[key] = v` on a field list: overwrite in
place if present, else append. -/
def setKey : List (String × Value) → String → Value → List (String × Value)
  | [], key, v => [(key, v)]
  | (k, w) :: rest, key, v =>
      if k = key then (k, v) :: rest else (k, w) :: setKey rest key v

/-- The `for (key in value)` enumeration: own fields of an object, indexed
elements of an array (`length` is not enumerable), nothing otherwise. -/
def Value.ownEntries : Value → List (String × Value)
  | .obj fields => fields
  | .arr items => items.enum.map (fun p => (toString p.1, p.2))
  | _ => []

/-- Replace every newline of `s` by `rep`: the port of
`s.replace(/\n/g, rep)` (the source only ever replaces the newline). -/
def replaceNL (rep : String) (s : String) : String :=
  String.mk (s.data.foldr (fun c acc => if c = '\n' then rep.data ++ acc else c :: acc) [])

/-- Lower-case hexadecimal digit. -/
def hexDigitChar (n : Nat) : Char :=
  if n < 10 then Char.ofNat ('0'.toNat + n) else Char.ofNat ('a'.toNat + n - 10)

/-- JSON string escaping as performed by `JSON.stringify`. -/
def escapeChar (c : Char) : List Char :=
  if c = '"' then ['\\', '"']
  else if c = '\\' then ['\\', '\\']
  else if c = '\n' then ['\\', 'n']
  else if c = '\r' then ['\\', 'r']
  else if c = '\t' then ['\\', 't']
  else if c = Char.ofNat 8 then ['\\', 'b']
  else if c = Char.ofNat 12 then ['\\', 'f']
  else if c.toNat < 32 then
    ['\\', 'u', '0', '0', hexDigitChar (c.toNat / 16), hexDigitChar (c.toNat % 16)]
  else [c]

/-- A double-quoted, escaped JSON string literal. -/
def jsonQuote (s : String) : String :=
  "\"" ++ String.mk (s.data.foldr (fun c acc => escapeChar c ++ acc) []) ++ "\""

/-- Divide out of `n` every factor `p` (identity unless `2 ≤ p`). -/
def stripFactor (p : Nat) (n : Nat) : Nat :=
  if h : 2 ≤ p ∧ 0 < n ∧ n % p = 0 then stripFactor p (n / p) else n
termination_by n
decreasing_by exact Nat.div_lt_self h.2.1 (by omega)

/-- Multiplicity of the factor `p` in `n` (0 unless `2 ≤ p`). -/
def factorCount (p : Nat) (n : Nat) : Nat :=
  if h : 2 ≤ p ∧ 0 < n ∧ n % p = 0 then factorCount p (n / p) + 1 else 0
termination_by n
decreasing_by exact Nat.div_lt_self h.2.1 (by omega)

/-- Pad a digit string with leading zeros up to `len`. -/
def padLeftZeros (s : String) (len : Nat) : String :=
  if s.length < len then String.mk (List.replicate (len - s.length) '0') ++ s else s

/-- Decimal rendering of a finite number: the exact decimal expansion when the
denominator is of the form `2^a * 5^b` (this covers every value a JavaScript
double can hold and agrees with how JavaScript prints decimal literals), a
fraction otherwise (unreachable from double-valued inputs). -/
def ratDecimalRepr (q : ℚ) : String :=
  if q.den = 1 then toString q.num
  else if stripFactor 5 (stripFactor 2 q.den) = 1 then
    let e := max (factorCount 2 q.den) (factorCount 5 q.den)
    let m := (q * (10 : ℚ) ^ e).num
    let a := m.natAbs
    (if m < 0 then "-" else "") ++ toString (a / 10 ^ e) ++ "." ++
      padLeftZeros (toString (a % 10 ^ e)) e
  else toString q.num ++ "/" ++ toString q.den

/-- The token `JSON.stringify` emits for a bare number: `null` for NaN and
the infinities, the decimal rendering otherwise. -/
def JNum.jsonLiteral : JNum → String
  | .nan => "null"
  | .posInf => "null"
  | .negInf => "null"
  | .fin q => ratDecimalRepr q

/-- The `fieldStr` loop of `debugReplace`: quote the first three key names,
mark the presence of a fourth with `, ...`, ignore the rest. -/
def fieldSummary : Nat → List String → String
  | _, [] => ""
  | fieldCount, k :: rest =>
      (if fieldCount = 3 then ", ..."
       else if fieldCount < 3 then
         (if fieldCount = 0 then "" else ", ") ++ "\x27" ++ k ++ "\x27"
       else "") ++ fieldSummary (fieldCount + 1) rest

/-- Port of `debugReplace`, the `JSON.stringify` replacer of the source: the
root (key `""`) passes through, non-empty arrays and objects one level down
are summarised as placeholder strings, everything else passes through. -/
def debugReplace (key : String) (value : Value) : Value :=
  if key = "" then value
  else
    match value with
    | .arr items =>
        if items.length = 0 then value
        else if items.length = 1 then .str "<Array with a single item>"
        else .str ("<Array with " ++ toString items.length ++ " items>")
    | .obj fields =>
        let fieldCount := fields.length
        let fieldStr := fieldSummary 0 (fields.map Prod.fst)
        if fieldCount = 0 then value
        else if fieldCount = 1 then .str ("<Object with the field " ++ fieldStr ++ ">")
        else if fieldCount ≤ 4 then .str ("<Object with these fields: " ++ fieldStr ++ ">")
        else .str ("<Object with " ++ toString fieldCount ++ " fields, like " ++ fieldStr ++ ">")
    | _ => value

mutual

/-- Body of `JSON.stringify(·, debugReplace, 4)`: serialize one value whose
enclosing indentation is `indent`.  `debugReplace` only ever returns its
argument or a string, so applying it to a member and matching on the result
(in `serializeItems` and `serializeFields`) is exactly the ES behaviour. -/
def serializeValue (indent : String) : Value → String
  | .null => "null"
  | .bool b => if b then "true" else "false"
  | .num n => n.jsonLiteral
  | .str s => jsonQuote s
  | .arr items =>
      match items with
      | [] => "[]"
      | _ :: _ =>
          let inner := indent ++ "    "
          "[\n" ++ inner ++
            String.intercalate (",\n" ++ inner) (serializeItems inner 0 items) ++
            "\n" ++ indent ++ "]"
  | .obj fields =>
      match fields with
      | [] => "\x7b\x7d"
      | _ :: _ =>
          let inner := indent ++ "    "
          "\x7b\n" ++ inner ++
            String.intercalate (",\n" ++ inner) (serializeFields inner fields) ++
            "\n" ++ indent ++ "\x7d"

/-- Array members: the replacer receives the index as its key. -/
def serializeItems (indent : String) (i : Nat) : List Value → List String
  | [] => []
  | c :: rest =>
      (match debugReplace (toString i) c with
       | .str s => jsonQuote s
       | _ => serializeValue indent c) :: serializeItems indent (i + 1) rest

/-- Object members: `"key": value` pairs. -/
def serializeFields (indent : String) : List (String × Value) → List String
  | [] => []
  | (k, c) :: rest =>
      (jsonQuote k ++ ": " ++
        (match debugReplace k c with
         | .str s => jsonQuote s
         | _ => serializeValue indent c)) :: serializeFields indent rest

end

/-- Port of `JSON.stringify(value, debugReplace, 4)`.  The replacer is the identity on
the root (its key is `""`), so serialization starts directly on `value`. -/
def jsonStringifyDebug (value : Value) : String :=
  serializeValue "" value

/-- Port of `toDebugString`. -/
def toDebugString (value : Value) : String :=
  replaceNL "\n    " ("\n" ++ jsonStringifyDebug value) ++ "\n"

/-- Port of `expected`, the shared failure-message header. -/
def expected (type : String) (value : Value) : String :=
  "Expected " ++ type ++ ", but got\n" ++ toDebugString value

/-- The decoder representation: one constructor per tag of the source.
`field` carries the optional `otherwise` default (`Decode.field` leaves it
absent, `Decode.optionalField` stores it); `inst` carries the fields the
zero-argument constructor capability would pre-populate (the source name
`instance` is a reserved word here). -/
inductive Decoder where
  | string
  | number
  | integer
  | bool
  | unknown
  | field (key : String) (child : Decoder) (otherwise : Option Value)
  | object (layout : List (String × Decoder))
  | inst (ctorFields : List (String × Value)) (layout : List (String × Decoder))
  | map (fn : Value → Value) (child : Decoder)
  | andThen (fn : Value → Decoder) (child : Decoder)
  | lazy (fn : Unit → Decoder)
  | many (child : Decoder)
  | succeed (value : Value)
  | fail (message : String)
  | oneOf (decoders : List Decoder)
  | dict (child : Decoder)

/-- The internal result wrapper: `ok value`, or `err msg meta` where `meta`
is the optional meta-marker (`none` models the absent argument). -/
inductive DResult where
  | ok (value : Value)
  | err (msg : String) (meta : Option Nat)
deriving Repr

/-- The meta-marker constant of the source. -/
def FIELD_ERROR_META : Nat := 999

/-- The per-branch blocks of the aggregated `oneOf` failure: `i` is the index
of the head message, `n` the total number of branches. -/
def oneOfFailBlocks : Nat → Nat → List String → String
  | _, _, [] => ""
  | i, n, m :: rest =>
      (if i = 0 then "┌" else "├") ++ "── Decoder at index " ++ toString i ++
        " reported:\n│\n│" ++ replaceNL "\n│    " ("\n" ++ m) ++ "\n│" ++
        (if i < n - 1 then "\n│\n" else "") ++
        oneOfFailBlocks (i + 1) n rest

/-- The aggregated failure message the `ONE_OF` case builds out of every
branch failure, in branch order. -/
def oneOfFailMsg (msgs : List String) : String :=
  "oneOf failed, because none of its child decoders were successful in decoding the value, here is a list of all errors:\n\n" ++
    oneOfFailBlocks 0 msgs.length msgs ++ "\n┴\n"

/-- The `MANY` loop: decode each element with `step child`, abort on the
first failure with the index trace line appended, collect successes. -/
def decodeManyItems (step : Decoder → Value → Option DResult) (child : Decoder)
    (whole : Value) : List Value → Nat → List Value → Option DResult
  | [], _, acc => some (.ok (.arr acc.reverse))
  | x :: rest, i, acc =>
      match step child x with
      | none => none
      | some (.ok v) => decodeManyItems step child whole rest (i + 1) (v :: acc)
      | some (.err msg meta) =>
          some (.err (msg ++ "\nwhen attempting to decode the item at index " ++
            toString i ++ " of\n" ++ toDebugString whole) meta)

/-- The `ONE_OF` loop: try each branch against the value, return the first
success, collect every failure message for the aggregated error. -/
def decodeOneOfBranches (step : Decoder → Value → Option DResult) (value : Value) :
    List Decoder → List String → Option DResult
  | [], msgsRev => some (.err (oneOfFailMsg msgsRev.reverse) none)
  | d :: rest, msgsRev =>
      match step d value with
      | none => none
      | some (.ok v) => some (.ok v)
      | some (.err msg _) => decodeOneOfBranches step value rest (msg :: msgsRev)

/-- Port of `decodeObj`: run each layout entry against the whole value,
assign successes onto the aggregate; on the first failure, rewrite the
message into the field-wrapping hint unless the failure already carries
`FIELD_ERROR_META`, and mark the rewritten failure with that marker. -/
def decodeObj (step : Decoder → Value → Option DResult) (value : Value) :
    List (String × Decoder) → List (String × Value) → Option DResult
  | [], objAcc => some (.ok (.obj objAcc))
  | (key, child) :: rest, objAcc =>
      match step child value with
      | none => none
      | some (.ok v) => decodeObj step value rest (setKey objAcc key v)
      | some (.err msg meta) =>
          if meta ≠ some FIELD_ERROR_META then
            some (.err ("Did you forget to wrap your decoder in \x27Decode.field\x27?" ++
              " This is not done automatically for you when using \x27Decode.object\x27 or \x27Decode.instance\x27. Here\x27s the actual error: " ++
              msg) (some FIELD_ERROR_META))
          else
            some (.err msg meta)

/-- The `DICT` loop: decode every enumerated entry with the same child
decoder into a fresh accumulator, abort on the first failing entry with the
failure unchanged (the source has a TODO about wrapping it in key info). -/
def decodeDictEntries (step : Decoder → Value → Option DResult) (child : Decoder) :
    List (String × Value) → List (String × Value) → Option DResult
  | [], acc => some (.ok (.obj acc))
  | (key, v) :: rest, acc =>
      match step child v with
      | none => none
      | some (.ok w) => decodeDictEntries step child rest (setKey acc key w)
      | some (.err msg meta) => some (.err msg meta)

/-- Port of `decodeInternal`.  `fuel` bounds the call depth: every recursive
interpretation step consumes one unit, and `none` means the budget was
exhausted (which only an adversarial `lazy`/`andThen` chain can force). -/
def decodeInternal : Nat → Decoder → Value → Option DResult
  | 0, _, _ => none
  | Nat.succ fuel, decoder, value =>
      match decoder with
      | .number =>
          if !value.isNumberType || value.isNaNNum then
            some (.err (expected "a number" value) none)
          else
            some (.ok value)
      | .integer =>
          match value with
          | .num n =>
              if !(JNum.strictEq n.trunc n) then
                some (.err (expected "an integer" value) none)
              else
                some (.ok value)
          | _ => some (.err (expected "an integer" value) none)
      | .string =>
          match value with
          | .str _ => some (.ok value)
          | _ => some (.err (expected "a string" value) none)
      | .field key child otherwise =>
          if !value.isObjectType then
            some (.err (expected ("an object with a field named \x27" ++ key ++ "\x27") value) none)
          else if !(value.hasKey key) then
            match otherwise with
            | some dflt => some (.ok dflt)
            | none =>
                some (.err (expected ("an object with a field named \x27" ++ key ++ "\x27") value) none)
          else
            match decodeInternal fuel child (value.getKey key) with
            | none => none
            | some (.ok v) => some (.ok v)
            | some (.err msg meta) =>
                some (.err (msg ++ "\nwhen attempting to decode the field \x27" ++ key ++
                  "\x27 of\n" ++ toDebugString value) meta)
      | .bool =>
          match value with
          | .bool _ => some (.ok value)
          | _ => some (.err (expected "a boolean" value) none)
      | .succeed v => some (.ok v)
      | .fail message => some (.err message none)
      | .lazy fn => decodeInternal fuel (fn ()) value
      | .map fn child =>
          match decodeInternal fuel child value with
          | none => none
          | some (.ok v) => some (.ok (fn v))
          | some (.err msg meta) => some (.err msg meta)
      | .andThen fn child =>
          match decodeInternal fuel child value with
          | none => none
          | some (.ok v) => decodeInternal fuel (fn v) value
          | some (.err msg meta) => some (.err msg meta)
      | .many child =>
          match value with
          | .arr items =>
              decodeManyItems (fun d v => decodeInternal fuel d v) child value items 0 []
          | _ => some (.err (expected "an array" value) none)
      | .object layout => decodeObj (fun d v => decodeInternal fuel d v) value layout []
      | .inst ctorFields layout =>
          decodeObj (fun d v => decodeInternal fuel d v) value layout ctorFields
      | .oneOf decoders =>
          decodeOneOfBranches (fun d v => decodeInternal fuel d v) value decoders []
      | .unknown => some (.ok value)
      | .dict child =>
          if !value.isObjectType then
            some (.err (expected "an object" value) none)
          else
            decodeDictEntries (fun d v => decodeInternal fuel d v) child value.ownEntries []

/-- Port of the boundary `decode`: unwrap a success, turn a failure into the
raised error carrying the final message. -/
def decode (fuel : Nat) (decoder : Decoder) (value : Value) : Option (Except String Value) :=
  match decodeInternal fuel decoder value with
  | none => none
  | some (.ok v) => some (.ok v)
  | some (.err msg _) => some (.error msg)

/-- Port of `decodeString`.  Modelled from the spec: the text-to-value parse
step (`JSON.parse`) is an external collaborator, so it is passed in as
`JSONparse`; its failure is the raised parse error, which propagates
unchanged because the source does not catch it. -/
def decodeString (JSONparse : String → Except String Value) (fuel : Nat)
    (decoder : Decoder) (text : String) : Option (Except String Value) :=
  match JSONparse text with
  | .error e => some (.error e)
  | .ok val => decode fuel decoder val

namespace Decode

/-- Port of `Decode.field(key, child)`: no `otherwise` default. -/
def field (key : String) (child : Decoder) : Decoder := .field key child none

/-- Port of `Decode.optionalField(key, val, child)`: a `field` with the default. -/
def optionalField (key : String) (val : Value) (child : Decoder) : Decoder :=
  .field key child (some val)

/-- Port of `Decode.succeed`. -/
def succeed (value : Value) : Decoder := .succeed value

/-- Port of `Decode.oneOf`. -/
def oneOf (decoders : List Decoder) : Decoder := .oneOf decoders

/-- Port of `Decode.optional(val, child) = oneOf([child, succeed(val)])`, verbatim. -/
def optional (val : Value) (child : Decoder) : Decoder :=
  oneOf [child, succeed val]

/-- Port of `Decode.at(path, child)` (`at` is a reserved word here): the loop walks
the path backwards, wrapping from the innermost name out, which is the right
fold of `field` over the path. -/
def atPath (path : List String) (child : Decoder) : Decoder :=
  path.foldr (fun k dec => field k dec) child

/-- Port of `Decode.optionalAt(path, val, child)`: the same fold over
`optionalField`. -/
def optionalAt (path : List String) (val : Value) (child : Decoder) : Decoder :=
  path.foldr (fun k dec => optionalField k val dec) child

/-- Port of `Decode.many`. -/
def many (child : Decoder) : Decoder := .many child

/-- Port of `Decode.dict`. -/
def dict (child : Decoder) : Decoder := .dict child

/-- Port of `Decode.object`. -/
def object (layout : List (String × Decoder)) : Decoder := .object layout

/-- Port of `Decode.instance(ctor, layout)` (`instance` is a reserved word here):
`ctor` is the empty-aggregate capability, modelled by the fields it
pre-populates. -/
def instanceOf (ctorFields : List (String × Value)) (layout : List (String × Decoder)) : Decoder :=
  .inst ctorFields layout

/-- Port of `Decode.map`. -/
def map (fn : Value → Value) (child : Decoder) : Decoder := .map fn child

/-- Port of `Decode.andThen`. -/
def andThen (fn : Value → Decoder) (child : Decoder) : Decoder := .andThen fn child

/-- Port of `Decode.lazy`. -/
def lazy (fn : Unit → Decoder) : Decoder := .lazy fn

/-- Port of `Decode.fail`. -/
def fail (message : String) : Decoder := .fail message

/-- Port of `Decode.unknown`. -/
def unknown : Decoder := .unknown

end Decode

/-- Truncation (toward zero) fixes a rational exactly when it is an
integer, i.e. when its denominator is 1. -/
theorem trunc_fixed_iff_den_one (q : ℚ) :
    ((if 0 ≤ q then (⌊q⌋ : ℚ) else (⌈q⌉ : ℚ)) = q) ↔ q.den = 1 := by
  constructor
  · intro h
    split at h
    · rw [← h]; exact Rat.den_intCast _
    · rw [← h]; exact Rat.den_intCast _
  · intro h
    have hq : (q.num : ℚ) = q := Rat.coe_int_num_of_den_eq_one h
    split
    · rw [← hq, Int.floor_intCast]
    · rw [← hq, Int.ceil_intCast]

/-- C2 counterexample: the `number` primitive accepts positive infinity, a
non-finite numeric value the claim says is rejected. -/
theorem number_accepts_positive_infinity :
    decodeInternal 1 Decoder.number (Value.num JNum.posInf) =
      some (DResult.ok (Value.num JNum.posInf)) := rfl

/-- C2 (amended): decoding with the `number` primitive succeeds returning
the input exactly when the input is a numeric value other than NaN — so the
non-finite values `+Infinity` and `-Infinity` are accepted — and every other
input fails with the number-expected error. -/
theorem number_characterization (fuel : Nat) (v : Value) :
    decodeInternal (fuel + 1) Decoder.number v =
      some (if v.isNumberType && !v.isNaNNum then DResult.ok v
            else DResult.err (expected "a number" v) none) ∧
    (decodeInternal (fuel + 1) Decoder.number v = some (DResult.ok v) ↔
      ∃ n, v = Value.num n ∧ n ≠ JNum.nan) := by
  have h1 : decodeInternal (fuel + 1) Decoder.number v =
      some (if v.isNumberType && !v.isNaNNum then DResult.ok v
            else DResult.err (expected "a number" v) none) := by
    cases v
    case num n => cases n <;> rfl
    all_goals rfl
  refine ⟨h1, ?_⟩
  rw [h1]
  cases v
  case num n =>
    cases n <;> simp [Value.isNumberType, Value.isNaNNum, JNum.isNaN]
  all_goals simp [Value.isNumberType, Value.isNaNNum]

/-- C3 counterexample: the `integer` primitive accepts positive infinity
(`Math.trunc` fixes it and `Infinity === Infinity`), a non-finite value the
claim says must fail. -/
theorem integer_accepts_positive_infinity :
    decodeInternal 1 Decoder.integer (Value.num JNum.posInf) =
      some (DResult.ok (Value.num JNum.posInf)) := rfl

/-- C3 (amended): decoding with the `integer` primitive succeeds returning
the input exactly when the input is numeric and strict-equal to its
truncation: a finite value passes exactly when it is a whole number (`42.0`
passes, `42.5` fails), NaN fails (`NaN === NaN` is false), but both
infinities pass, contrary to the claim that non-finite values fail; every
other input fails with the integer-expected error. -/
theorem integer_characterization (fuel : Nat) (v : Value) :
    decodeInternal (fuel + 1) Decoder.integer v =
      some (match v with
            | Value.num n =>
                if JNum.strictEq n.trunc n then DResult.ok v
                else DResult.err (expected "an integer" v) none
            | _ => DResult.err (expected "an integer" v) none) ∧
    (decodeInternal (fuel + 1) Decoder.integer v = some (DResult.ok v) ↔
      (∃ q : ℚ, v = Value.num (JNum.fin q) ∧ q.den = 1) ∨
        v = Value.num JNum.posInf ∨ v = Value.num JNum.negInf) := by
  have h1 : decodeInternal (fuel + 1) Decoder.integer v =
      some (match v with
            | Value.num n =>
                if JNum.strictEq n.trunc n then DResult.ok v
                else DResult.err (expected "an integer" v) none
            | _ => DResult.err (expected "an integer" v) none) := by
    cases v
    case num n =>
      cases n
      case fin q =>
        show (if !(JNum.strictEq (JNum.trunc (JNum.fin q)) (JNum.fin q)) then _ else _) = _
        cases hc : JNum.strictEq (JNum.trunc (JNum.fin q)) (JNum.fin q) <;> simp [hc]
      all_goals rfl
    all_goals rfl
  refine ⟨h1, ?_⟩
  rw [h1]
  cases v
  case num n =>
    cases n
    case fin q =>
      have hiff := trunc_fixed_iff_den_one q
      cases hc : JNum.strictEq (JNum.trunc (JNum.fin q)) (JNum.fin q)
      · have : ¬ q.den = 1 := by
          intro hden
          have : JNum.strictEq (JNum.trunc (JNum.fin q)) (JNum.fin q) = true := by
            simp [JNum.trunc, JNum.strictEq, hiff.mpr hden]
          simp [this] at hc
        simp [hc, this]
      · have : q.den = 1 := by
          apply hiff.mp
          simpa [JNum.trunc, JNum.strictEq] using hc
        simp [hc, this]
    all_goals simp [JNum.trunc, JNum.strictEq]
  all_goals simp

/-- C10: when the input object lacks the key, `optionalField` returns the
stored default directly without consulting the child decoder: the result
holds for every child decoder `d`, and already at a fuel budget (one unit)
under which any interpretation of a child decoder would be impossible. -/
theorem optionalField_missing_key_default (fuel : Nat) (key : String) (v : Value)
    (d : Decoder) (fields : List (String × Value))
    (habs : Value.hasKey (Value.obj fields) key = false) :
    decodeInternal (fuel + 1) (Decode.optionalField key v d) (Value.obj fields) =
      some (DResult.ok v) := by
  show (if _ then _ else _) = _
  simp [Value.isObjectType, habs]

/-- C10 witness: at a concrete input, the key is absent, the default is
returned, and the very child decoder in use rejects that default. -/
theorem optionalField_missing_key_default_witness :
    Value.hasKey (Value.obj []) "f" = false ∧
    decodeInternal 1 (Decode.optionalField "f" (Value.str "no") Decoder.integer)
        (Value.obj []) = some (DResult.ok (Value.str "no")) ∧
    decodeInternal 1 Decoder.integer (Value.str "no") =
      some (DResult.err (expected "an integer" (Value.str "no")) none) :=
  ⟨rfl, optionalField_missing_key_default 0 "f" (Value.str "no") Decoder.integer [] rfl, rfl⟩

/-- C4: `optional(val, child)` is literally `oneOf([child, succeed(val)])`,
and decoding with it yields the child result when the child succeeds and
the default otherwise (with `none` meaning the child interpretation did not
finish within the fuel budget). -/
theorem optional_is_oneOf_child_succeed (fuel : Nat) (d : Decoder) (v i : Value) :
    Decode.optional v d = Decode.oneOf [d, Decode.succeed v] ∧
    decode (fuel + 2) (Decode.optional v d) i =
      (match decode (fuel + 1) d i with
       | some (Except.ok x) => some (Except.ok x)
       | some (Except.error _) => some (Except.ok v)
       | none => none) := by
  refine ⟨rfl, ?_⟩
  have hd : decodeInternal (fuel + 2) (Decoder.oneOf [d, Decoder.succeed v]) i =
      decodeOneOfBranches (fun d v => decodeInternal (fuel + 1) d v) i
        [d, Decoder.succeed v] [] := rfl
  have hs : decodeInternal (fuel + 1) (Decoder.succeed v) i = some (DResult.ok v) := rfl
  show decode (fuel + 2) (Decoder.oneOf [d, Decoder.succeed v]) i = _
  cases h : decodeInternal (fuel + 1) d i with
  | none =>
      simp [decode, hd, decodeOneOfBranches, h]
  | some r =>
      cases r with
      | ok x => simp [decode, hd, decodeOneOfBranches, h]
      | err m meta => simp [decode, hd, decodeOneOfBranches, h, hs]

/-- C9: `decodeString` first runs the external parse collaborator; a parse
failure propagates unchanged, and a parse success is decoded exactly as
`decode` would. -/
theorem decodeString_refinement (JSONparse : String → Except String Value)
    (fuel : Nat) (decoder : Decoder) (text : String) :
    (∀ e, JSONparse text = Except.error e →
      decodeString JSONparse fuel decoder text = some (Except.error e)) ∧
    (∀ v, JSONparse text = Except.ok v →
      decodeString JSONparse fuel decoder text = decode fuel decoder v) := by
  constructor
  · intro e he
    simp [decodeString, he]
  · intro v hv
    simp [decodeString, hv]

/-- C9 witness: a failing parser propagates its message; a succeeding
parser hands its value to `decode`. -/
theorem decodeString_refinement_witness :
    (fun _ : String => (Except.error "bad parse" : Except String Value)) "x" =
        Except.error "bad parse" ∧
    decodeString (fun _ => Except.error "bad parse") 1 Decoder.integer "x" =
      some (Except.error "bad parse") ∧
    (fun _ : String => (Except.ok (Value.num (JNum.fin 7)) : Except String Value)) "7" =
        Except.ok (Value.num (JNum.fin 7)) ∧
    decodeString (fun _ => Except.ok (Value.num (JNum.fin 7))) 1 Decoder.integer "7" =
      decode 1 Decoder.integer (Value.num (JNum.fin 7)) :=
  ⟨rfl,
    (decodeString_refinement (fun _ => Except.error "bad parse") 1 Decoder.integer "x").1
      "bad parse" rfl,
    rfl,
    (decodeString_refinement (fun _ => Except.ok (Value.num (JNum.fin 7))) 1 Decoder.integer
      "7").2 (Value.num (JNum.fin 7)) rfl⟩

/-- C1: evaluated at a layout whose only (and failing) entry IS wrapped in
`Decode.field`, the interpreter still rewrites the failure into the
field-wrapping usability hint and tags it with `FIELD_ERROR_META` — the
FIELD case never tags its own failures, so `decodeObj` cannot recognise
them, contrary to the claim that field-originated failures propagate
unchanged. -/
theorem object_rewrites_field_originated_failure :
    decodeInternal 3 (Decode.object [("v", Decode.field "a" Decoder.integer)])
        (Value.obj [("a", Value.str "x")]) =
      some (DResult.err
        ("Did you forget to wrap your decoder in \x27Decode.field\x27?" ++
          " This is not done automatically for you when using \x27Decode.object\x27 or \x27Decode.instance\x27. Here\x27s the actual error: " ++
          (expected "an integer" (Value.str "x") ++
            "\nwhen attempting to decode the field \x27a\x27 of\n" ++
            toDebugString (Value.obj [("a", Value.str "x")])))
        (some FIELD_ERROR_META)) := by
  rfl

/-- Evaluation fact: a `field` step on an object that lacks the key yields
the stored default. -/
theorem decodeInternal_field_absent (fuel : Nat) (key : String) (child : Decoder)
    (v : Value) (fields : List (String × Value))
    (hk : Value.hasKey (Value.obj fields) key = false) :
    decodeInternal (fuel + 1) (Decoder.field key child (some v)) (Value.obj fields) =
      some (DResult.ok v) := by
  show (if _ then _ else _) = _
  simp [Value.isObjectType, hk]

/-- Evaluation fact: a `field` step on an object that has the key decodes
the keyed value with the child and wraps any failure in the field trace
line. -/
theorem decodeInternal_field_present (fuel : Nat) (key : String) (child : Decoder)
    (oth : Option Value) (fields : List (String × Value))
    (hk : Value.hasKey (Value.obj fields) key = true) :
    decodeInternal (fuel + 1) (Decoder.field key child oth) (Value.obj fields) =
      (match decodeInternal fuel child (Value.getKey (Value.obj fields) key) with
       | none => none
       | some (DResult.ok v) => some (DResult.ok v)
       | some (DResult.err msg meta) =>
           some (DResult.err (msg ++ "\nwhen attempting to decode the field \x27" ++ key ++
             "\x27 of\n" ++ toDebugString (Value.obj fields)) meta)) := by
  show (if _ then _ else _) = _
  simp [Value.isObjectType, hk]

/-- Some level of `path` is missing inside `w`: either the head key is
absent from the (non-null keyed container) value, or it is present and the
rest of the path is missing inside the keyed value. -/
def missingAlong : List String → Value → Bool
  | [], _ => false
  | k :: rest, .obj fields =>
      if (lookupField fields k).isSome then
        missingAlong rest ((lookupField fields k).getD .null)
      else true
  | _ :: _, _ => false

/-- C5: whenever some level of the path is missing (the enclosing values up
to that level being keyed containers), `optionalAt` returns the default —
however many levels are missing, and in particular on the empty object. -/
theorem optionalAt_missing_level (path : List String) (v : Value) (d : Decoder)
    (w : Value) (fuel : Nat) (h : missingAlong path w = true) :
    decodeInternal (fuel + path.length) (Decode.optionalAt path v d) w =
      some (DResult.ok v) := by
  induction path generalizing w fuel with
  | nil => simp [missingAlong] at h
  | cons k rest ih =>
      cases w
      case obj fields =>
        have hlen : fuel + (k :: rest).length = (fuel + rest.length) + 1 := by
          simp [List.length_cons]
          omega
        rw [hlen,
          show Decode.optionalAt (k :: rest) v d =
            Decoder.field k (Decode.optionalAt rest v d) (some v) from rfl]
        cases hk : (lookupField fields k).isSome with
        | false =>
            exact decodeInternal_field_absent _ _ _ _ _ (by simp [Value.hasKey, hk])
        | true =>
            have hrest : missingAlong rest ((lookupField fields k).getD Value.null) = true := by
              simpa [missingAlong, hk] using h
            rw [decodeInternal_field_present _ _ _ _ _ (by simp [Value.hasKey, hk]),
              show Value.getKey (Value.obj fields) k =
                (lookupField fields k).getD Value.null from rfl,
              ih _ fuel hrest]
      all_goals simp [missingAlong] at h

/-- C5 witness: with the two-level path `a.b` and the empty object, the
default bubbles up. -/
theorem optionalAt_missing_level_witness :
    missingAlong ["a", "b"] (Value.obj []) = true ∧
    decodeInternal 2 (Decode.optionalAt ["a", "b"] (Value.num (JNum.fin 0)) Decoder.integer)
        (Value.obj []) = some (DResult.ok (Value.num (JNum.fin 0))) :=
  ⟨rfl, optionalAt_missing_level ["a", "b"] (Value.num (JNum.fin 0)) Decoder.integer
    (Value.obj []) 0 rfl⟩

/-- The pattern `pat` occurs somewhere in `s` as a contiguous substring. -/
def OccursIn (pat s : String) : Prop :=
  ∃ a b : List Char, s.data = a ++ (pat.data ++ b)

/-- An occurrence survives appending on the right. -/
theorem OccursIn.appendRight {pat s : String} (t : String) (h : OccursIn pat s) :
    OccursIn pat (s ++ t) := by
  obtain ⟨a, b, hs⟩ := h
  exact ⟨a, b ++ t.data, by simp [String.data_append, hs]⟩

/-- An occurrence survives appending on the left. -/
theorem OccursIn.appendLeft {pat s : String} (t : String) (h : OccursIn pat s) :
    OccursIn pat (t ++ s) := by
  obtain ⟨a, b, hs⟩ := h
  exact ⟨t.data ++ a, b, by simp [String.data_append, hs]⟩

/-- The evaluation of the `MANY` loop on the first rejected element: every
element in front decodes, the rejected one aborts the loop with the index
trace line. -/
theorem decodeManyItems_first_err (step : Decoder → Value → Option DResult)
    (child : Decoder) (whole : Value) (back : List Value) (x : Value)
    (m : String) (meta : Option Nat) (hx : step child x = some (DResult.err m meta)) :
    ∀ (front : List Value) (i : Nat) (acc : List Value),
    (∀ y ∈ front, ∃ w, step child y = some (DResult.ok w)) →
    decodeManyItems step child whole (front ++ x :: back) i acc =
      some (DResult.err (m ++ "\nwhen attempting to decode the item at index " ++
        toString (i + front.length) ++ " of\n" ++ toDebugString whole) meta) := by
  intro front
  induction front with
  | nil =>
      intro i acc _
      simp [decodeManyItems, hx]
  | cons y rest ih =>
      intro i acc hfront
      obtain ⟨w, hw⟩ := hfront y (by simp)
      have hrest : ∀ y ∈ rest, ∃ w, step child y = some (DResult.ok w) :=
        fun y hy => hfront y (by simp [hy])
      have harith : i + 1 + rest.length = i + (y :: rest).length := by
        simp [List.length_cons]
        omega
      simpa [decodeManyItems, hw, harith] using ih (i + 1) (w :: acc) hrest

/-- C6: for every child decoder, `many` yields the empty sequence on an
empty sequence, and every non-sequence input fails with the array-expected
error; on a sequence whose first rejected element sits at index `k`
(everything in front of it decodes), it aborts with that failure plus the
index trace line — independently of the elements after index `k`, which are
never decoded — and the raised message names index `k`. -/
theorem many_semantics (fuel : Nat) (d : Decoder) :
    decodeInternal (fuel + 1) (Decoder.many d) (Value.arr []) =
      some (DResult.ok (Value.arr [])) ∧
    (∀ (front back : List Value) (x : Value) (m : String) (meta : Option Nat),
      (∀ y ∈ front, ∃ w, decodeInternal fuel d y = some (DResult.ok w)) →
      decodeInternal fuel d x = some (DResult.err m meta) →
      decodeInternal (fuel + 1) (Decoder.many d) (Value.arr (front ++ x :: back)) =
        some (DResult.err (m ++ "\nwhen attempting to decode the item at index " ++
          toString front.length ++ " of\n" ++
          toDebugString (Value.arr (front ++ x :: back))) meta) ∧
      OccursIn ("index " ++ toString front.length)
        (m ++ "\nwhen attempting to decode the item at index " ++
          toString front.length ++ " of\n" ++
          toDebugString (Value.arr (front ++ x :: back)))) ∧
    (∀ w : Value, w.isArrayType = false →
      decodeInternal (fuel + 1) (Decoder.many d) w =
        some (DResult.err (expected "an array" w) none)) := by
  refine ⟨rfl, ?_, ?_⟩
  · intro front back x m meta hfront hx
    refine ⟨?_, ?_⟩
    · have hrun := decodeManyItems_first_err (fun c v => decodeInternal fuel c v) d
        (Value.arr (front ++ x :: back)) back x m meta hx front 0 [] hfront
      show decodeManyItems (fun c v => decodeInternal fuel c v) d
          (Value.arr (front ++ x :: back)) (front ++ x :: back) 0 [] = _
      simpa using hrun
    · have hsplit : ("\nwhen attempting to decode the item at index " : String).data =
          ("\nwhen attempting to decode the item at " : String).data ++
            ("index " : String).data := rfl
      refine ⟨(m ++ "\nwhen attempting to decode the item at ").data,
        (" of\n" ++ toDebugString (Value.arr (front ++ x :: back))).data, ?_⟩
      simp [String.data_append, hsplit]
  · intro w hw
    cases w
    case arr items => simp [Value.isArrayType] at hw
    all_goals rfl

/-- C6 witness: the empty sequence and the array-expected conjuncts are
exercised with never-failing children (`succeed`, `unknown`); the abort
conjunct runs the integer child on `[1, "x", true]`, whose first rejected
element is at index 1 — the element behind it plays no role. -/
theorem many_semantics_witness :
    decodeInternal 1 (Decoder.many (Decoder.succeed Value.null)) (Value.arr []) =
      some (DResult.ok (Value.arr [])) ∧
    Value.isArrayType Value.null = false ∧
    decodeInternal 1 (Decoder.many Decoder.unknown) Value.null =
      some (DResult.err (expected "an array" Value.null) none) ∧
    (∀ y ∈ [Value.num (JNum.fin 1)],
      ∃ w, decodeInternal 1 Decoder.integer y = some (DResult.ok w)) ∧
    decodeInternal 1 Decoder.integer (Value.str "x") =
      some (DResult.err (expected "an integer" (Value.str "x")) none) ∧
    decodeInternal 2 (Decoder.many Decoder.integer)
        (Value.arr [Value.num (JNum.fin 1), Value.str "x", Value.bool true]) =
      some (DResult.err (expected "an integer" (Value.str "x") ++
        "\nwhen attempting to decode the item at index " ++ toString (1 : Nat) ++ " of\n" ++
        toDebugString (Value.arr [Value.num (JNum.fin 1), Value.str "x", Value.bool true]))
        none) := by
  have hfront : ∀ y ∈ [Value.num (JNum.fin 1)],
      ∃ w, decodeInternal 1 Decoder.integer y = some (DResult.ok w) := by
    intro y hy
    simp at hy
    subst hy
    exact ⟨Value.num (JNum.fin 1), by rfl⟩
  have hx : decodeInternal 1 Decoder.integer (Value.str "x") =
      some (DResult.err (expected "an integer" (Value.str "x")) none) := rfl
  exact ⟨(many_semantics 0 (Decoder.succeed Value.null)).1, rfl,
    (many_semantics 0 Decoder.unknown).2.2 Value.null rfl, hfront, hx,
    ((many_semantics 1 Decoder.integer).2.1 [Value.num (JNum.fin 1)] [Value.bool true]
      (Value.str "x") (expected "an integer" (Value.str "x")) none hfront hx).1⟩

/-- The `ONE_OF` loop returns the first success: branches in front all
fail, the first succeeding branch decides, later branches are never run. -/
theorem decodeOneOfBranches_first_ok (step : Decoder → Value → Option DResult)
    (value : Value) (back : List Decoder) (d : Decoder) (r : Value)
    (hd : step d value = some (DResult.ok r)) :
    ∀ (front : List Decoder) (acc : List String),
    (∀ c ∈ front, ∃ m meta, step c value = some (DResult.err m meta)) →
    decodeOneOfBranches step value (front ++ d :: back) acc = some (DResult.ok r) := by
  intro front
  induction front with
  | nil =>
      intro acc _
      simp [decodeOneOfBranches, hd]
  | cons c rest ih =>
      intro acc hfront
      obtain ⟨m, meta, hm⟩ := hfront c (by simp)
      simpa [decodeOneOfBranches, hm] using
        ih (m :: acc) (fun c hc => hfront c (by simp [hc]))

/-- The `ONE_OF` loop when every branch fails: the collected messages feed
the aggregated failure. -/
theorem decodeOneOfBranches_all_err (step : Decoder → Value → Option DResult)
    (value : Value) :
    ∀ (ds : List Decoder) (ms : List String) (acc : List String),
    List.Forall₂ (fun c m => ∃ meta, step c value = some (DResult.err m meta)) ds ms →
    decodeOneOfBranches step value ds acc =
      some (DResult.err (oneOfFailMsg (acc.reverse ++ ms)) none) := by
  intro ds ms acc h
  induction h generalizing acc with
  | nil => simp [decodeOneOfBranches]
  | @cons c m cs ms2 hcm hrest ih =>
      obtain ⟨meta, hm⟩ := hcm
      have hrec := ih (m :: acc)
      have hlist : (m :: acc).reverse ++ ms2 = acc.reverse ++ m :: ms2 := by simp
      rw [hlist] at hrec
      simpa [decodeOneOfBranches, hm] using hrec

/-- Each per-branch block of the aggregated `oneOf` failure text names its
branch index. -/
theorem oneOfFailBlocks_names_index :
    ∀ (ms : List String) (i n j : Nat), j < ms.length →
    OccursIn ("── Decoder at index " ++ toString (i + j) ++ " reported:")
      (oneOfFailBlocks i n ms) := by
  intro ms
  induction ms with
  | nil =>
      intro i n j hj
      simp at hj
  | cons m rest ih =>
      intro i n j hj
      cases j with
      | zero =>
          have hsplit : (" reported:\n│\n│" : String).data =
              (" reported:" : String).data ++ ("\n│\n│" : String).data := rfl
          refine ⟨((if i = 0 then "┌" else "├") : String).data,
            ("\n│\n│" ++ replaceNL "\n│    " ("\n" ++ m) ++ "\n│" ++
              (if i < n - 1 then "\n│\n" else "") ++ oneOfFailBlocks (i + 1) n rest).data, ?_⟩
          show (oneOfFailBlocks i n (m :: rest)).data = _
          simp only [oneOfFailBlocks]
          simp [String.data_append, hsplit]
      | succ j2 =>
          rw [show i + (j2 + 1) = (i + 1) + j2 from by omega]
          have hrec := ih (i + 1) n j2 (by simpa using hj)
          show OccursIn _ (oneOfFailBlocks i n (m :: rest))
          simp only [oneOfFailBlocks]
          exact OccursIn.appendLeft _ hrec

/-- C7: `oneOf` is left-biased — with every branch in front of `d` failing,
the first succeeding branch `d` decides the result, and the branches behind
it are irrelevant — and when every branch fails, the single aggregated
failure message is built from every branch failure message in order, each
block naming its branch index. -/
theorem oneOf_left_bias_and_aggregation (fuel : Nat) (value : Value) :
    (∀ (front back : List Decoder) (d : Decoder) (r : Value),
      (∀ c ∈ front, ∃ m meta, decodeInternal fuel c value = some (DResult.err m meta)) →
      decodeInternal fuel d value = some (DResult.ok r) →
      decodeInternal (fuel + 1) (Decoder.oneOf (front ++ d :: back)) value =
        some (DResult.ok r)) ∧
    (∀ (ds : List Decoder) (ms : List String),
      List.Forall₂
        (fun c m => ∃ meta, decodeInternal fuel c value = some (DResult.err m meta)) ds ms →
      decodeInternal (fuel + 1) (Decoder.oneOf ds) value =
        some (DResult.err (oneOfFailMsg ms) none) ∧
      ∀ j, j < ms.length →
        OccursIn ("── Decoder at index " ++ toString j ++ " reported:")
          (oneOfFailMsg ms)) := by
  constructor
  · intro front back d r hfront hd
    show decodeOneOfBranches (fun c v => decodeInternal fuel c v) value (front ++ d :: back) [] = _
    exact decodeOneOfBranches_first_ok _ _ back d r hd front [] hfront
  · intro ds ms h
    constructor
    · show decodeOneOfBranches (fun c v => decodeInternal fuel c v) value ds [] = _
      simpa using decodeOneOfBranches_all_err _ value ds ms [] h
    · intro j hj
      have hrec := oneOfFailBlocks_names_index ms 0 ms.length j hj
      rw [Nat.zero_add] at hrec
      have h1 := OccursIn.appendLeft
        ("oneOf failed, because none of its child decoders were successful in decoding the value, here is a list of all errors:\n\n")
        hrec
      have h2 := OccursIn.appendRight ("\n┴\n") h1
      simpa [oneOfFailMsg] using h2

/-- C7 witness: `oneOf [unknown, succeed 5]` on the number 7 — both branches
could match — returns 7, the first branch interpretation; and on
`oneOf [integer, string]` applied to `true` every branch fails and the
aggregated message names index 1. -/
theorem oneOf_left_bias_and_aggregation_witness :
    decodeInternal 1 Decoder.unknown (Value.num (JNum.fin 7)) =
      some (DResult.ok (Value.num (JNum.fin 7))) ∧
    decodeInternal 2
        (Decoder.oneOf ([] ++ Decoder.unknown :: [Decoder.succeed (Value.num (JNum.fin 5))]))
        (Value.num (JNum.fin 7)) = some (DResult.ok (Value.num (JNum.fin 7))) ∧
    decodeInternal 2 (Decoder.oneOf [Decoder.integer, Decoder.string]) (Value.bool true) =
      some (DResult.err (oneOfFailMsg [expected "an integer" (Value.bool true),
        expected "a string" (Value.bool true)]) none) ∧
    OccursIn ("── Decoder at index " ++ toString (1 : Nat) ++ " reported:")
      (oneOfFailMsg [expected "an integer" (Value.bool true),
        expected "a string" (Value.bool true)]) := by
  have hbias := (oneOf_left_bias_and_aggregation 1 (Value.num (JNum.fin 7))).1 []
    [Decoder.succeed (Value.num (JNum.fin 5))] Decoder.unknown (Value.num (JNum.fin 7))
    (by intro c hc; simp at hc) rfl
  have hfa : List.Forall₂
      (fun c m => ∃ meta, decodeInternal 1 c (Value.bool true) = some (DResult.err m meta))
      [Decoder.integer, Decoder.string]
      [expected "an integer" (Value.bool true), expected "a string" (Value.bool true)] :=
    List.Forall₂.cons ⟨none, rfl⟩ (List.Forall₂.cons ⟨none, rfl⟩ List.Forall₂.nil)
  have hagg := (oneOf_left_bias_and_aggregation 1 (Value.bool true)).2
    [Decoder.integer, Decoder.string]
    [expected "an integer" (Value.bool true), expected "a string" (Value.bool true)] hfa
  exact ⟨rfl, hbias, hagg.1, hagg.2 1 (by simp)⟩

/-- Assigning a fresh key appends it at the end of the field list. -/
theorem setKey_not_mem (k : String) (v : Value) :
    ∀ (acc : List (String × Value)), k ∉ acc.map Prod.fst →
    setKey acc k v = acc ++ [(k, v)] := by
  intro acc
  induction acc with
  | nil => intro _; rfl
  | cons p rest ih =>
      intro hk
      obtain ⟨k2, w⟩ := p
      have hne : k2 ≠ k := by
        intro heq
        exact hk (by simp [heq])
      simp [setKey, hne, ih (fun hmem => hk (by simp [hmem]))]

/-- The `DICT` loop when every entry decodes: the result holds the old
accumulator entries followed by every input entry with its decoded value,
in input order. -/
theorem decodeDictEntries_all_ok (step : Decoder → Value → Option DResult)
    (child : Decoder) (f : String × Value → Value) :
    ∀ (entries acc : List (String × Value)),
    ((acc ++ entries).map Prod.fst).Nodup →
    (∀ p ∈ entries, step child p.2 = some (DResult.ok (f p))) →
    decodeDictEntries step child entries acc =
      some (DResult.ok (Value.obj (acc ++ entries.map (fun p => (p.1, f p))))) := by
  intro entries
  induction entries with
  | nil =>
      intro acc _ _
      simp [decodeDictEntries]
  | cons p rest ih =>
      intro acc hnd hok
      obtain ⟨k, x⟩ := p
      have hnd1 := hnd
      rw [show ((acc ++ (k, x) :: rest).map Prod.fst) =
          acc.map Prod.fst ++ k :: rest.map Prod.fst from by simp,
        List.nodup_append] at hnd1
      have hk : k ∉ acc.map Prod.fst := fun hmem => hnd1.2.2 hmem (by simp)
      have hnd2 : (((acc ++ [(k, f (k, x))]) ++ rest).map Prod.fst).Nodup := by
        rw [show (((acc ++ [(k, f (k, x))]) ++ rest).map Prod.fst) =
            acc.map Prod.fst ++ k :: rest.map Prod.fst from by simp,
          List.nodup_append]
        exact hnd1
      have hrec := ih (acc ++ [(k, f (k, x))]) hnd2 (fun p hp => hok p (by simp [hp]))
      have hstep : step child x = some (DResult.ok (f (k, x))) := hok (k, x) (by simp)
      simp only [decodeDictEntries, hstep]
      rw [setKey_not_mem k (f (k, x)) acc hk]
      simpa using hrec

/-- The `DICT` loop aborts on the first failing entry, propagating that
entry failure unchanged. -/
theorem decodeDictEntries_first_err (step : Decoder → Value → Option DResult)
    (child : Decoder) (back : List (String × Value)) (k : String) (x : Value)
    (m : String) (meta : Option Nat) (hx : step child x = some (DResult.err m meta)) :
    ∀ (front acc : List (String × Value)),
    (∀ p ∈ front, ∃ w, step child p.2 = some (DResult.ok w)) →
    decodeDictEntries step child (front ++ (k, x) :: back) acc =
      some (DResult.err m meta) := by
  intro front
  induction front with
  | nil =>
      intro acc _
      simp [decodeDictEntries, hx]
  | cons p rest ih =>
      intro acc hfront
      obtain ⟨k2, y⟩ := p
      obtain ⟨w, hw⟩ := hfront (k2, y) (by simp)
      simpa [decodeDictEntries, hw] using
        ih (setKey acc k2 w) (fun p hp => hfront p (by simp [hp]))

/-- C8: `dict` on an object input whose keys are distinct and whose values
all decode builds a mapping — assembled entry by entry from a fresh empty
accumulator, never from the input object itself — holding every input key
with its decoded value, in input order; a single entry whose value the
child rejects aborts the whole decode with that entry failure; and every
input that is not a non-null keyed container fails with the
container-expected error. -/
theorem dict_semantics (fuel : Nat) (d : Decoder) :
    (∀ (fields : List (String × Value)) (f : String × Value → Value),
      (fields.map Prod.fst).Nodup →
      (∀ p ∈ fields, decodeInternal fuel d p.2 = some (DResult.ok (f p))) →
      decodeInternal (fuel + 1) (Decoder.dict d) (Value.obj fields) =
        some (DResult.ok (Value.obj (fields.map (fun p => (p.1, f p)))))) ∧
    (∀ (front back : List (String × Value)) (k : String) (x : Value) (m : String)
        (meta : Option Nat),
      (∀ p ∈ front, ∃ w, decodeInternal fuel d p.2 = some (DResult.ok w)) →
      decodeInternal fuel d x = some (DResult.err m meta) →
      decodeInternal (fuel + 1) (Decoder.dict d) (Value.obj (front ++ (k, x) :: back)) =
        some (DResult.err m meta)) ∧
    (∀ w : Value, w.isObjectType = false →
      decodeInternal (fuel + 1) (Decoder.dict d) w =
        some (DResult.err (expected "an object" w) none)) := by
  refine ⟨?_, ?_, ?_⟩
  · intro fields f hnd hok
    show decodeDictEntries (fun c v => decodeInternal fuel c v) d fields [] = _
    simpa using decodeDictEntries_all_ok (fun c v => decodeInternal fuel c v) d f fields []
      (by simpa using hnd) hok
  · intro front back k x m meta hfront hx
    show decodeDictEntries (fun c v => decodeInternal fuel c v) d (front ++ (k, x) :: back) [] = _
    exact decodeDictEntries_first_err (fun c v => decodeInternal fuel c v) d back k x m meta
      hx front [] hfront
  · intro w hw
    cases w
    case obj fields => simp [Value.isObjectType] at hw
    case arr items => simp [Value.isObjectType] at hw
    all_goals rfl

/-- C8 witness: a two-entry object of integers decodes to a fresh equal
mapping; one bad entry aborts with its own failure; `null` is rejected. -/
theorem dict_semantics_witness :
    decodeInternal 2 (Decoder.dict Decoder.integer)
        (Value.obj [("a", Value.num (JNum.fin 1)), ("b", Value.num (JNum.fin 2))]) =
      some (DResult.ok (Value.obj [("a", Value.num (JNum.fin 1)),
        ("b", Value.num (JNum.fin 2))])) ∧
    decodeInternal 2 (Decoder.dict Decoder.integer)
        (Value.obj ([("a", Value.num (JNum.fin 1))] ++ ("b", Value.str "x") ::
          [("c", Value.num (JNum.fin 3))])) =
      some (DResult.err (expected "an integer" (Value.str "x")) none) ∧
    decodeInternal 2 (Decoder.dict Decoder.integer) Value.null =
      some (DResult.err (expected "an object" Value.null) none) := by
  have hall := (dict_semantics 1 Decoder.integer).1
    [("a", Value.num (JNum.fin 1)), ("b", Value.num (JNum.fin 2))] (fun p => p.2)
    (by simp)
    (by
      intro p hp
      simp at hp
      rcases hp with h | h <;> subst h <;> rfl)
  have herr := (dict_semantics 1 Decoder.integer).2.1
    [("a", Value.num (JNum.fin 1))] [("c", Value.num (JNum.fin 3))] "b" (Value.str "x")
    (expected "an integer" (Value.str "x")) none
    (by
      intro p hp
      simp at hp
      subst hp
      exact ⟨Value.num (JNum.fin 1), by rfl⟩)
    rfl
  exact ⟨hall, herr, (dict_semantics 1 Decoder.integer).2.2 Value.null rfl⟩
